import Mathlib

/-!
Verification of the CandidateHire candidate ranking & retrieval engine.

Shallow embedding of the scoring, ranking, retrieval, caching and
persistence logic of the repository (`app/utils/scoring.py`,
`app/utils/skills.py`, `app/utils/tfidf_builder.py`,
`app/utils/rag_retrieval.py`, `app/utils/faiss_index.py`,
`app/services/ranking_service.py`, `app/services/rag_service.py`).

Modelling conventions:
- Python floats are modelled as rationals (`ℚ`); the claims under study are
  about exact formulas, clamping, ordering and bounds, none of which depend
  on binary floating-point rounding.
- Skill sets are `Finset String`; Python `set` operations map to `Finset`
  operations.
- External collaborators (sklearn cosine similarities, embedding vectors,
  the file system, the LLM stream) enter as explicit parameters of the
  embedded functions, exactly where the Python code receives their values.
-/

/-- Source: `max(0.0, min(1.0, x))`, the clamp used by `combine_scores`
(`app/utils/scoring.py` line 15). -/
def clamp01 (x : ℚ) : ℚ := max 0 (min 1 x)

/-- Source: `combine_scores(tfidf_score, skill_score, w_tfidf, w_skill)` from
`app/utils/scoring.py` lines 1-15: weighted combination clamped to [0,1]. -/
def combine_scores_w (tfidf_score skill_score w_tfidf w_skill : ℚ) : ℚ :=
  clamp01 (w_tfidf * tfidf_score + w_skill * skill_score)

/-- Source: `combine_scores` applied with its default weights `w_tfidf=0.7`,
`w_skill=0.3`, as called from `ranking_service.rank_collection` line 149. -/
def combine_scores (tfidf_score skill_score : ℚ) : ℚ :=
  combine_scores_w tfidf_score skill_score (7/10) (3/10)

/-- Source: `skill_overlap_score(jd_skills, resume_skills)` from
`app/utils/skills.py` lines 83-98: `0.0` when `jd_skills` is empty, else
`|jd ∩ resume| / |jd|`. -/
def skill_overlap_score (jd_skills resume_skills : Finset String) : ℚ :=
  if jd_skills = ∅ then 0
  else ((jd_skills ∩ resume_skills).card : ℚ) / (jd_skills.card : ℚ)

/-- Per-profile final score of batch ranking
(`ranking_service.rank_collection` lines 148-149). -/
def batch_final_score (tfidf_score : ℚ) (jd_skills resume_skills : Finset String) : ℚ :=
  combine_scores tfidf_score (skill_overlap_score jd_skills resume_skills)

/-!
Section: Skill extraction (`app/utils/skills.py`)

Texts are processed as `List Char`. Python's `str.replace`, `str.lower`,
`re.sub` and `str.split` are modelled character-by-character; Python's
Unicode-aware `\w` is modelled by its ASCII meaning (letter, digit or
underscore), which is exact on the repository's ASCII vocabulary.
-/

/-- Source: `ALIASES` from `app/utils/skills.py` lines 4-9, in insertion order. -/
def ALIASES : List (String × String) :=
  [("c++", "cpp"), ("c#", "csharp"), ("node.js", "nodejs"), ("ci/cd", "cicd")]

/-- Python `str.replace`: scan left to right, replace non-overlapping
occurrences of `pat`. Fuel-indexed for structural recursion; called with
fuel = length of the scanned list. (Python's special behaviour on an empty
pattern is irrelevant here: every alias pattern is non-empty.) -/
def replaceFuel (pat rep : List Char) : Nat → List Char → List Char
  | 0, s => s
  | _ + 1, [] => []
  | n + 1, c :: cs =>
    if pat.isEmpty then c :: replaceFuel pat rep n cs
    else if pat.isPrefixOf (c :: cs) then
      rep ++ replaceFuel pat rep n (List.drop pat.length (c :: cs))
    else c :: replaceFuel pat rep n cs

/-- Python `s.replace(pat, rep)` on char lists. -/
def pyReplace (s pat rep : List Char) : List Char := replaceFuel pat rep s.length s

/-- Source: `canonicalize_text` (`skills.py` lines 24-37): lowercase, then apply the
alias substitutions in order. -/
def canonicalize_text (text : String) : List Char :=
  ALIASES.foldl (fun t p => pyReplace t p.1.data p.2.data) (text.data.map Char.toLower)

/-- Python regex `\w` (ASCII model): letter, digit or underscore. -/
def isWordChar (c : Char) : Bool := c.isAlphanum || c == '_'

/-- Source: `re.sub(r'[^\w\s]', ' ', text)`: every character that is neither a word
character nor whitespace becomes a space. -/
def substNonWord (s : List Char) : List Char :=
  s.map fun c => if isWordChar c || c.isWhitespace then c else ' '

/-- Source: `re.sub(r'\s+', ' ', text)`: collapse each whitespace run to one space.
The flag records whether the previous character was whitespace. -/
def collapseWsAux : Bool → List Char → List Char
  | _, [] => []
  | prevWs, c :: cs =>
    if c.isWhitespace then
      if prevWs then collapseWsAux true cs else ' ' :: collapseWsAux true cs
    else c :: collapseWsAux false cs

/-- Python `str.strip`. -/
def stripChars (s : List Char) : List Char :=
  ((s.dropWhile Char.isWhitespace).reverse.dropWhile Char.isWhitespace).reverse

/-- Source: `normalize_text` (`skills.py` lines 39-52) on char lists. -/
def normalize_chars (text : String) : List Char :=
  stripChars (collapseWsAux false (substNonWord (canonicalize_text text)))

/-- Source: `normalize_text` as a `String`-valued function. -/
def normalize_text (text : String) : String := String.mk (normalize_chars text)

/-- Substring test (Python `pat in s` on strings). -/
def isInfixB (pat : List Char) : List Char → Bool
  | [] => pat.isEmpty
  | c :: cs => pat.isPrefixOf (c :: cs) || isInfixB pat cs

/-- Python `s.split(" ")` (the token list of a normalized text). -/
def splitOnSpaceAux : List Char → List Char → List (List Char)
  | acc, [] => [acc.reverse]
  | acc, c :: cs =>
    if c == ' ' then acc.reverse :: splitOnSpaceAux [] cs
    else splitOnSpaceAux (c :: acc) cs

/-- Token list of a char list, splitting on spaces. -/
def splitOnSpace (s : List Char) : List (List Char) := splitOnSpaceAux [] s

/-- One vocabulary test of `extract_skills` (`skills.py` lines 68-79).
A normalized text contains only word characters and single interior spaces,
so on it the word-boundary regex `\b…\b` match of a single-word skill is
membership in the space-separated token list; for the degenerate empty
skill the regex `\b\b` matches exactly when the text is non-empty. -/
def matchesSkill (normText sn : List Char) : Bool :=
  if sn.contains ' ' then isInfixB sn normText
  else if sn.isEmpty then !normText.isEmpty
  else (splitOnSpace normText).contains sn

/-- Source: `SKILLS`, the curated vocabulary (`skills.py` lines 12-22). -/
def SKILLS : List String :=
  ["python", "java", "javascript", "typescript", "cpp", "csharp", "ruby", "go", "rust", "php",
   "sql", "nosql", "mysql", "postgresql", "mongodb", "redis", "elasticsearch",
   "django", "flask", "fastapi", "spring", "react", "angular", "vue", "nodejs", "express",
   "docker", "kubernetes", "aws", "azure", "gcp", "terraform", "ansible",
   "git", "cicd", "jenkins", "github actions", "gitlab",
   "machine learning", "deep learning", "nlp", "computer vision", "tensorflow", "pytorch",
   "agile", "scrum", "jira", "api", "rest", "graphql", "microservices",
   "html", "css", "sass", "webpack", "babel",
   "linux", "bash", "shell scripting", "nginx", "apache"]

/-- Source: `extract_skills(text, skills_vocab)` (`skills.py` lines 54-81): collect
the normalized vocabulary entries that match the normalized text, as a
sorted duplicate-free list (Python builds a `set` and returns `sorted(...)`). -/
def extract_skills (text : String) (skills_vocab : List String) : List String :=
  let normalized := normalize_chars text
  let matched := (skills_vocab.map normalize_text).filter fun sn => matchesSkill normalized sn.data
  List.insertionSort (· ≤ ·) matched.dedup


/-!
Section: Section-aware lexical ranker (`app/utils/tfidf_builder.py`,
`app/services/ranking_service.py` lines 56-133)

The sklearn TF-IDF vectors themselves are external; the embedding keeps,
for each of the two documents, the set of sections for which a fitted
vectorizer exists (both transform functions produce a vector for exactly
those sections), and an oracle `sim` giving the cosine similarity sklearn
reports for a section's pair of vectors.
-/

/-- The six resume sections (`section_parser.ResumeSections` fields). -/
inductive ResumeSection
  | summary
  | experience
  | skills
  | education
  | projects
  | other
deriving DecidableEq, Repr

/-- Source: `ResumeSections` from `app/utils/section_parser.py` lines 11-19. -/
structure ResumeSections where
  summary : String
  experience : String
  skills : String
  education : String
  projects : String
  other : String
deriving DecidableEq, Repr

/-- Source: `sections_to_dict(...).get(section_name, "")`. -/
def sections_get (r : ResumeSections) : ResumeSection → String
  | .summary => r.summary
  | .experience => r.experience
  | .skills => r.skills
  | .education => r.education
  | .projects => r.projects
  | .other => r.other

/-- Source: `SECTION_WEIGHTS` (`tfidf_builder.py` lines 19-26). -/
def SECTION_WEIGHTS : ResumeSection → ℚ
  | .experience => 1/2
  | .skills => 3/10
  | .projects => 1/5
  | _ => 0

/-- The iteration order `["experience", "skills", "projects"]` used by both
`build_section_aware_tfidf` and `compute_section_aware_similarity`. -/
def weightedSectionList : List ResumeSection :=
  [ResumeSection.experience, ResumeSection.skills, ResumeSection.projects]

/-- Source: `_compute_skill_boost_factor(resume_text, jd_text, skills_vocab)`
(`tfidf_builder.py` lines 54-83): `1.0` when the JD has no skills, else
`1.0 + overlap * 0.5` with `overlap = |resume ∩ jd| / |jd|`. -/
def compute_skill_boost_factor (resume_text jd_text : String) (skills_vocab : List String) : ℚ :=
  let resume_skills := (extract_skills resume_text skills_vocab).toFinset
  let jd_skills := (extract_skills jd_text skills_vocab).toFinset
  if jd_skills = ∅ then 1
  else 1 + ((resume_skills ∩ jd_skills).card : ℚ) / (jd_skills.card : ℚ) * (1/2)

/-- The accumulation step of the loop in `compute_section_aware_similarity`
(`tfidf_builder.py` lines 247-264): a section contributes `weight * sim`
when both documents have a vector for it. -/
def sectionStep (resumeSecs jdSecs : List ResumeSection) (sim : ResumeSection → ℚ)
    (acc : ℚ × ℚ) (s : ResumeSection) : ℚ × ℚ :=
  let w := SECTION_WEIGHTS s
  if w = 0 then acc
  else if s ∈ resumeSecs ∧ s ∈ jdSecs then (acc.1 + w * sim s, acc.2 + w)
  else acc

/-- Source: `base_similarity` of `compute_section_aware_similarity`
(`tfidf_builder.py` lines 244-267): weighted total over contributing
sections divided by the total weight used, `0.0` when no section
contributed. -/
def section_base_similarity (resumeSecs jdSecs : List ResumeSection)
    (sim : ResumeSection → ℚ) : ℚ :=
  let tw := weightedSectionList.foldl (sectionStep resumeSecs jdSecs sim) (0, 0)
  if 0 < tw.2 then tw.1 / tw.2 else 0

/-- Source: `compute_section_aware_similarity(...)` (`tfidf_builder.py` lines
223-274): the base similarity, boosted post-cosine and capped at `1.0`
when both texts are non-empty (Python truthiness of the two strings). -/
def compute_section_aware_similarity (resumeSecs jdSecs : List ResumeSection)
    (sim : ResumeSection → ℚ) (resume_text jd_text : String)
    (skills_vocab : List String) : ℚ :=
  let base := section_base_similarity resumeSecs jdSecs sim
  if resume_text ≠ "" ∧ jd_text ≠ "" then
    min (base * compute_skill_boost_factor resume_text jd_text skills_vocab) 1
  else base

/-- Weight actually used by the weighted combination: the sum, over the
weighted sections present in both documents, of the section weight. -/
def usedWeight (resumeSecs jdSecs : List ResumeSection) : ℚ :=
  (weightedSectionList.map fun s =>
    if s ∈ resumeSecs ∧ s ∈ jdSecs then SECTION_WEIGHTS s else 0).sum

/-- Weighted similarity total over the sections present in both documents. -/
def usedScore (resumeSecs jdSecs : List ResumeSection) (sim : ResumeSection → ℚ) : ℚ :=
  (weightedSectionList.map fun s =>
    if s ∈ resumeSecs ∧ s ∈ jdSecs then SECTION_WEIGHTS s * sim s else 0).sum

/-- The non-empty stripped texts of one section across all profiles
(`build_section_aware_tfidf`, `tfidf_builder.py` lines 108-119). -/
def section_texts (resumeSectionsList : List ResumeSections) (s : ResumeSection) : List String :=
  (resumeSectionsList.map fun r => String.mk (stripChars (sections_get r s).data)).filter
    fun t => t ≠ ""

/-- Source: `build_section_aware_tfidf` (`tfidf_builder.py` lines 86-158), reduced
to the data the similarity computation consumes: which weighted sections
obtained a fitted vectorizer. A section is skipped when it has no
non-empty text (lines 117-119); whether sklearn's fitting then yields a
non-empty vocabulary (including the `min_df=1` retry, lines 121-156) is
external and abstracted by the oracle `vocabOK`. -/
def available_sections (vocabOK : ResumeSection → List String → Bool)
    (resumeSectionsList : List ResumeSections) : List ResumeSection :=
  weightedSectionList.filter fun s =>
    let texts := section_texts resumeSectionsList s
    !texts.isEmpty && vocabOK s texts

/-- Section loading for one profile (`ranking_service.rank_collection`
lines 66-88): use the stored sections when present, otherwise fall back to
`parse_sections`, which always returns a `ResumeSections` value ("Never
return None", `section_parser.py` line 107). -/
def load_or_parse (parse : String → ResumeSections) (text : String)
    (loaded : Option ResumeSections) : Option ResumeSections :=
  some (loaded.getD (parse text))

/-- Source: `use_section_aware = all(sections is not None for sections in
resume_sections_list)` (`ranking_service.rank_collection` line 107); when
false the whole-document TF-IDF fallback (lines 127-133) runs instead. -/
def use_section_aware (sectionsList : List (Option ResumeSections)) : Bool :=
  sectionsList.all fun o => o.isSome

/-!
Section: Batch ranking order (`app/services/ranking_service.py` lines 135-175)

Python's `list.sort` is a stable sort; on a total preorder key every stable
sort produces the same output, so it is embedded as `List.insertionSort`
with the reflexive "key not smaller" relation: `orderedInsert` places each
element (inserted in original order, later elements first) before the
first element whose key is not larger, which keeps key-equal elements in
their original relative order.
-/

/-- One entry of the `results` list built by `rank_collection` (lines
152-161): filename plus the three raw scores. -/
structure RankRow where
  filename : String
  tfidf_score : ℚ
  skill_score : ℚ
  final_score : ℚ
deriving DecidableEq, Repr

/-- Source: `a` may precede `b` under
`results.sort(key=lambda x: (x["final_score_raw"], x["tfidf_score_raw"]), reverse=True)`
(line 163): the key of `a` is lexicographically at least the key of `b`. -/
def rankKeyGE (a b : RankRow) : Prop :=
  b.final_score < a.final_score
    ∨ (b.final_score = a.final_score ∧ b.tfidf_score ≤ a.tfidf_score)

instance : DecidableRel rankKeyGE := fun a b => by
  unfold rankKeyGE
  infer_instance

/-- The sort of line 163 as a stable sort on the two-component key. -/
def sort_results (rows : List RankRow) : List RankRow :=
  List.insertionSort rankKeyGE rows

/-- The strict total order the sorted output realizes when the input rows
carry distinct filenames in ascending order: final score descending, then
TF-IDF score descending, then filename ascending. -/
def rankOrder (a b : RankRow) : Prop :=
  b.final_score < a.final_score
    ∨ (b.final_score = a.final_score ∧
        (b.tfidf_score < a.tfidf_score
          ∨ (b.tfidf_score = a.tfidf_score ∧ a.filename < b.filename)))

instance : IsAntisymm RankRow rankOrder where
  antisymm a b hab hba := by
    rcases hab with h1 | ⟨he1, h1⟩
    · rcases hba with h2 | ⟨he2, h2⟩
      · exact absurd h2 (lt_asymm h1)
      · exact absurd he2 (ne_of_lt h1).symm
    · rcases hba with h2 | ⟨he2, h2⟩
      · exact absurd he1 (ne_of_lt h2).symm
      · rcases h1 with h1 | ⟨ht1, h1⟩
        · rcases h2 with h2 | ⟨ht2, h2⟩
          · exact absurd h2 (lt_asymm h1)
          · exact absurd ht2 (ne_of_lt h1).symm
        · rcases h2 with h2 | ⟨ht2, h2⟩
          · exact absurd ht1 (ne_of_lt h2).symm
          · exact absurd h2 (lt_asymm h1)

/-!
Section: Semantic search and two-stage retrieval (`app/utils/faiss_index.py`,
`app/utils/rag_retrieval.py`)

Embedding vectors are rational vectors; `IndexFlatL2` reports squared L2
distances, embedded exactly as such. The L2 normalization FAISS applies to
the stored and query vectors (`faiss.normalize_L2`) only rescales them and
involves square roots, so the embedding takes the vectors as given — every
verified property is independent of that rescaling. FAISS returns the
`min(k, ntotal)` nearest vectors in ascending distance order,
deterministically; this is embedded as a stable sort on the index-ordered
distance list followed by `take`.
-/

/-- Squared L2 distance between two vectors. -/
def l2sq (u v : List ℚ) : ℚ := (List.zipWith (fun a b => (a - b) ^ 2) u v).sum

/-- Ascending-distance comparison on (vector id, distance) pairs. -/
def distLE (a b : ℕ × ℚ) : Prop := a.2 ≤ b.2

instance : DecidableRel distLE := fun a b => by
  unfold distLE
  infer_instance

instance : IsTotal (ℕ × ℚ) distLE := ⟨fun a b => le_total a.2 b.2⟩

instance : IsTrans (ℕ × ℚ) distLE := ⟨fun _ _ _ h1 h2 => le_trans h1 h2⟩

/-- Source: `search_index(index, query_embedding, k)` (`faiss_index.py` lines
107-129): the `min(k, index.ntotal)` (vector id, distance) pairs in
ascending distance order. -/
def search_index (vecs : List (List ℚ)) (query_embedding : List ℚ) (k : ℕ) : List (ℕ × ℚ) :=
  (List.insertionSort distLE ((vecs.map fun v => l2sq query_embedding v).enum)).take
    (min k vecs.length)

/-- Python `round(x, 4)` on the exact rational value. (CPython rounds the
nearest binary double with ties-to-even; no claim under study depends on a
half-way or float-representation case.) -/
def round4 (x : ℚ) : ℚ := ((round (x * 10000) : ℤ) : ℚ) / 10000

/-- Python `str.lower` (ASCII model). -/
def toLowerStr (s : String) : String := String.mk (s.data.map Char.toLower)

/-- The `filters` dictionary read by `retrieve_candidates`
(`rag_retrieval.py` lines 142-160); `none`/`[]` mean the key is absent. -/
structure Filters where
  min_rank_position : Option ℕ
  max_rank_position : Option ℕ
  min_ranking_score : Option ℚ
  required_skills : List String
deriving DecidableEq, Repr

/-- One entry of the stored `ranking_results.json` as read by
`load_ranking_results` (`rag_retrieval.py` lines 14-42). -/
structure RankEntry where
  filename : String
  rank : ℕ
  final_score : ℚ
deriving DecidableEq, Repr

/-- One candidate dictionary appended by `retrieve_candidates`
(`rag_retrieval.py` lines 162-171). The code stores the rounded
`combined_score` (and sorts by it); the pre-rounding value is kept
alongside as `combined_raw` because the `min_ranking_score` filter at line
153 tests the unrounded value. The `excerpt` field (an un-scored file-system
read) is omitted. -/
structure Candidate where
  filename : String
  rank_position : ℕ
  faiss_similarity : ℚ
  ranking_score : Option ℚ
  skill_score : ℚ
  combined_score : ℚ
  combined_raw : ℚ
  skills : List String
deriving DecidableEq, Repr

/-- Descending order on the stored (rounded) combined score, the key of
`candidates.sort(key=lambda x: x["combined_score"], reverse=True)`
(`rag_retrieval.py` line 174). -/
def candLE (a b : Candidate) : Prop := b.combined_score ≤ a.combined_score

instance : DecidableRel candLE := fun a b => by
  unfold candLE
  infer_instance

instance : IsTotal Candidate candLE := ⟨fun a b => le_total b.combined_score a.combined_score⟩

instance : IsTrans Candidate candLE := ⟨fun _ _ _ h1 h2 => le_trans h2 h1⟩

/-- Source: `min_rank_position` check (`rag_retrieval.py` lines 143-146): skip the
candidate when its rank is worse (numerically larger) than the bound. -/
def failsMinRank (filters : Filters) (rank_position : ℕ) : Bool :=
  match filters.min_rank_position with
  | some v => decide (v < rank_position)
  | none => false

/-- Source: `max_rank_position` check (lines 148-151): skip the candidate when its
rank is better (numerically smaller) than the bound. -/
def failsMaxRank (filters : Filters) (rank_position : ℕ) : Bool :=
  match filters.max_rank_position with
  | some v => decide (rank_position < v)
  | none => false

/-- Source: `min_ranking_score` check (lines 153-154), applied to the unrounded
combined score. -/
def failsMinScore (filters : Filters) (combined_score : ℚ) : Bool :=
  match filters.min_ranking_score with
  | some v => decide (combined_score < v)
  | none => false

/-- Source: `required_skills` check (lines 157-160): when the list is non-empty,
skip the candidate unless its (lowercased) skill set meets the required
set. -/
def failsRequiredSkills (filters : Filters) (resume_skills : Finset String) : Bool :=
  decide (filters.required_skills ≠ [] ∧
    (filters.required_skills.map toLowerStr).toFinset ∩ resume_skills = ∅)

/-- Source: `ranking_score` of one shortlisted candidate (`rag_retrieval.py`
lines 124-125): the stored `final_score` when a prior batch ranking is
loaded and contains the filename, else `0.0`. -/
def rankingScoreOf (ranking_dict : List RankEntry) (filename : String) : ℚ :=
  if !ranking_dict.isEmpty then
    ((ranking_dict.find? fun e => e.filename == filename).map RankEntry.final_score).getD 0
  else 0

/-- Source: `rank_position` of one shortlisted candidate (line 126): the stored
rank when available, else the worst-possible default `999`. -/
def rankPositionOf (ranking_dict : List RankEntry) (filename : String) : ℕ :=
  if !ranking_dict.isEmpty then
    ((ranking_dict.find? fun e => e.filename == filename).map RankEntry.rank).getD 999
  else 999

/-- Source: `skill_score` (line 132): overlap against the query skills, `0.0` when
the query has none. -/
def skillScoreOf (query_skills resume_skills : Finset String) : ℚ :=
  if query_skills ≠ ∅ then skill_overlap_score query_skills resume_skills else 0

/-- Source: `combined_score` (lines 134-140): `0.4·semantic + 0.3·prior + 0.3·skill`
with a prior batch ranking, else `0.6·semantic + 0.4·skill`. -/
def combinedOf (has_ranking : Bool) (faiss_similarity ranking_score skill_score : ℚ) : ℚ :=
  if has_ranking then
    2/5 * faiss_similarity + 3/10 * ranking_score + 3/10 * skill_score
  else 3/5 * faiss_similarity + 2/5 * skill_score

/-- Resume skills of a shortlisted file (lines 128-131). -/
def resumeSkillsOf (resume_text_of : String → String) (filename : String) : List String :=
  extract_skills (resume_text_of filename) SKILLS

/-- The candidate dictionary appended at lines 162-171. -/
def mkCandidate (ranking_dict : List RankEntry) (resume_text_of : String → String)
    (query_skills : Finset String) (dist : ℚ) (filename : String) : Candidate :=
  { filename := filename
    rank_position := rankPositionOf ranking_dict filename
    faiss_similarity := round4 (1 / (1 + dist))
    ranking_score :=
      if !ranking_dict.isEmpty then some (round4 (rankingScoreOf ranking_dict filename))
      else none
    skill_score := round4 (skillScoreOf query_skills
      (resumeSkillsOf resume_text_of filename).toFinset)
    combined_score := round4 (combinedOf (!ranking_dict.isEmpty) (1 / (1 + dist))
      (rankingScoreOf ranking_dict filename)
      (skillScoreOf query_skills (resumeSkillsOf resume_text_of filename).toFinset))
    combined_raw := combinedOf (!ranking_dict.isEmpty) (1 / (1 + dist))
      (rankingScoreOf ranking_dict filename)
      (skillScoreOf query_skills (resumeSkillsOf resume_text_of filename).toFinset)
    skills := resumeSkillsOf resume_text_of filename }

/-- The body of the `for idx, (distance, vector_id) in enumerate(...)` loop
of `retrieve_candidates` (`rag_retrieval.py` lines 116-171) for one search
hit `p = (vector_id, distance)`: `none` when the hit is skipped (unknown
vector id, line 117, or a failed filter, lines 142-160), otherwise the
candidate dictionary. -/
def candidate_of (resume_mapping : List (ℕ × String)) (ranking_dict : List RankEntry)
    (resume_text_of : String → String) (query_skills : Finset String)
    (filters : Filters) (p : ℕ × ℚ) : Option Candidate :=
  match resume_mapping.lookup p.1 with
  | none => none
  | some filename =>
    if failsMinRank filters (rankPositionOf ranking_dict filename) then none
    else if failsMaxRank filters (rankPositionOf ranking_dict filename) then none
    else if failsMinScore filters (combinedOf (!ranking_dict.isEmpty) (1 / (1 + p.2))
        (rankingScoreOf ranking_dict filename)
        (skillScoreOf query_skills (resumeSkillsOf resume_text_of filename).toFinset)) then none
    else if failsRequiredSkills filters (resumeSkillsOf resume_text_of filename).toFinset then
      none
    else some (mkCandidate ranking_dict resume_text_of query_skills p.2 filename)

/-- Source: `retrieve_candidates(...)` (`rag_retrieval.py` lines 69-177): FAISS
shortlist of up to 50, per-hit scoring and filtering, then sort by the
stored combined score descending and truncate to `top_k`. `ranking_dict`
is the loaded prior batch ranking (empty when the file is absent or
`use_ranking` is false); `resume_text_of` is the processed-resume text the
file system returns for a filename. -/
def retrieve_candidates (vecs : List (List ℚ)) (query : String) (query_embedding : List ℚ)
    (resume_mapping : List (ℕ × String)) (ranking_dict : List RankEntry)
    (resume_text_of : String → String) (top_k : ℕ) (filters : Filters) : List Candidate :=
  let query_skills := (extract_skills query SKILLS).toFinset
  let candidates := (search_index vecs query_embedding 50).filterMap
    (candidate_of resume_mapping ranking_dict resume_text_of query_skills filters)
  (List.insertionSort candLE candidates).take top_k

/-!
Section: Response cache (`app/services/rag_service.py` lines 152-292)

The cache directory holds one JSON file per query hash; it is modelled as
an association list from query hash to (cached_at, response), with time in
seconds as a rational. `process_stream_cache` is the tail of
`process_rag_query` (lines 280-292): accumulate the streamed chunks and
store the result when it is non-empty and does not start with `"Error:"`
(the failure marker `stream_llm_response` emits, `llm_service.py`).
-/

/-- The cache directory contents: `(query_hash, cached_at, response)` per
cache file. -/
structure CacheState where
  entries : List (String × ℚ × String)
deriving Repr

/-- The TTL of one hour (`timedelta(hours=1)`), in seconds. -/
def CACHE_TTL : ℚ := 3600

/-- Python `s.startswith(pre)`. -/
def startsWithStr (s pre : String) : Bool := pre.data.isPrefixOf s.data

/-- Source: `save_cached_response(cache_path, query_hash, response)` (lines
178-190): write the cache file for the hash, replacing any existing one. -/
def save_cached_response (st : CacheState) (now : ℚ) (query_hash response : String) :
    CacheState :=
  ⟨(query_hash, now, response) :: st.entries.filter fun e => e.1 != query_hash⟩

/-- Source: `get_cached_response(cache_path, query_hash)` (lines 157-175): `none`
when no file exists; on a hit, delete the file and report `none` when the
age exceeds the TTL, otherwise return the stored response. Returns the
response together with the cache state left behind. -/
def get_cached_response (st : CacheState) (now : ℚ) (query_hash : String) :
    Option String × CacheState :=
  match st.entries.find? fun e => e.1 == query_hash with
  | none => (none, st)
  | some (_, cached_at, response) =>
    if now - cached_at > CACHE_TTL then
      (none, ⟨st.entries.filter fun e => e.1 != query_hash⟩)
    else (some response, st)

/-- Source: `full_response` accumulation of `process_rag_query` (lines 281-284). -/
def accumulate (chunks : List String) : String := chunks.foldl (· ++ ·) ""

/-- The caching guard `if full_response and not
full_response.startswith("Error:")` (line 287). -/
def shouldCache (full_response : String) : Bool :=
  decide (full_response ≠ "") && !startsWithStr full_response "Error:"

/-- Lines 280-292: accumulate the streamed chunks, then cache the full
text exactly when the guard passes. -/
def process_stream_cache (st : CacheState) (now : ℚ) (query_hash : String)
    (chunks : List String) : CacheState :=
  let full := accumulate chunks
  if shouldCache full then save_cached_response st now query_hash full else st

/-- The LLM collaborator signals a failure by a chunk prefixed `"Error:"`
(`llm_service.stream_llm_response`, `llm_service.py` lines 69-132). -/
def streamHasError (chunks : List String) : Bool :=
  chunks.any fun c => startsWithStr c "Error:"

/-!
Section: Batch-ranking persistence order (`app/services/ranking_service.py`)

`rank_collection` is modelled by its trace of side-effecting events, in
the statement order of the source: the JD text is saved (line 49) before
any scoring; scoring covers the whole corpus (lines 106-163); every output
and artifact write (lines 177-230) follows the last scored profile and
`collection_meta.json` is marked `completed` last.  A run that raises
(empty JD at line 47, no resumes at line 54, or a failure/cancellation at
a per-profile boundary while scoring) produces the truncated trace up to
that point.
-/

/-- One side-effecting step of `rank_collection`. -/
inductive RankEvent where
  | saveJD
  | scoreProfile (i : ℕ)
  | writeRankingJson
  | writeRankingCsv
  | writeSummary
  | saveArtifacts
  | saveRankConfig
  | markComplete
deriving DecidableEq, Repr

/-- Ranking outputs and artifacts: everything written at lines 177-230
(results JSON/CSV, summary, vectorizer artifacts, rank config, completion
mark). The JD save of line 49 is deliberately not in this set. -/
def isOutputWrite : RankEvent → Bool
  | .writeRankingJson => true
  | .writeRankingCsv => true
  | .writeSummary => true
  | .saveArtifacts => true
  | .saveRankConfig => true
  | .markComplete => true
  | _ => false

/-- The write sequence of lines 177-230; the vectorizer artifacts are
saved only on the standard (non-section-aware) path (lines 210-214). -/
def rank_outputs_suffix (use_section_aware : Bool) : List RankEvent :=
  [RankEvent.writeRankingJson, RankEvent.writeRankingCsv, RankEvent.writeSummary]
    ++ (if !use_section_aware then [RankEvent.saveArtifacts] else [])
    ++ [RankEvent.saveRankConfig, RankEvent.markComplete]

/-- Event trace and success flag of one `rank_collection` run. `jd_blank`:
the JD is empty/whitespace (line 46); `resume_count`: number of processed
resumes; `fail_at = some j` (with `j < resume_count`): the run fails or is
cancelled at the boundary before scoring profile `j`. -/
def rank_collection_trace (jd_blank : Bool) (resume_count : ℕ) (fail_at : Option ℕ)
    (use_section_aware : Bool) : List RankEvent × Bool :=
  if jd_blank then ([], false)
  else if resume_count = 0 then ([RankEvent.saveJD], false)
  else
    match fail_at with
    | some j =>
      if j < resume_count then
        (RankEvent.saveJD :: (List.range j).map RankEvent.scoreProfile, false)
      else
        (RankEvent.saveJD :: (List.range resume_count).map RankEvent.scoreProfile
          ++ rank_outputs_suffix use_section_aware, true)
    | none =>
      (RankEvent.saveJD :: (List.range resume_count).map RankEvent.scoreProfile
        ++ rank_outputs_suffix use_section_aware, true)

/-!
Section: Theorems
-/

lemma skill_overlap_score_nonneg (jd resume : Finset String) :
    0 ≤ skill_overlap_score jd resume := by
  unfold skill_overlap_score
  split
  · exact le_refl 0
  · positivity

lemma skill_overlap_score_le_one (jd resume : Finset String) :
    skill_overlap_score jd resume ≤ 1 := by
  unfold skill_overlap_score
  split
  · exact zero_le_one
  · rename_i h
    have hcard : 0 < jd.card := Finset.card_pos.mpr (Finset.nonempty_iff_ne_empty.mpr h)
    have hle : (jd ∩ resume).card ≤ jd.card :=
      Finset.card_le_card (Finset.inter_subset_left)
    rw [div_le_one (by exact_mod_cast hcard)]
    exact_mod_cast hle

lemma clamp01_mem (x : ℚ) : 0 ≤ clamp01 x ∧ clamp01 x ≤ 1 := by
  unfold clamp01
  constructor
  · exact le_max_left 0 _
  · exact max_le (by norm_num) (min_le_left 1 x)

/-- C2: in batch ranking, for every profile the final score equals
`0.7 * lexical + 0.3 * skill_overlap` clamped to `[0,1]`, where
`skill_overlap = |query_skills ∩ profile_skills| / |query_skills|`, and the
overlap is `0` (never an error) whenever the query has no skills. -/
theorem batch_final_score_spec (tfidf : ℚ) (jd_skills resume_skills : Finset String) :
    batch_final_score tfidf jd_skills resume_skills
      = max 0 (min 1 (7/10 * tfidf +
          3/10 * (if jd_skills = ∅ then 0
                  else ((jd_skills ∩ resume_skills).card : ℚ) / (jd_skills.card : ℚ))))
    ∧ (jd_skills = ∅ → skill_overlap_score jd_skills resume_skills = 0)
    ∧ 0 ≤ skill_overlap_score jd_skills resume_skills
    ∧ skill_overlap_score jd_skills resume_skills ≤ 1 := by
  refine ⟨rfl, fun h => by simp [skill_overlap_score, h], ?_, ?_⟩
  · exact skill_overlap_score_nonneg jd_skills resume_skills
  · exact skill_overlap_score_le_one jd_skills resume_skills

/-- Witness for C2 at a concrete input: query skills `{python, sql}`,
profile skills `{python}`, lexical score `1/2`. -/
theorem batch_final_score_spec_witness :
    batch_final_score (1/2) {"python", "sql"} {"python"}
      = max 0 (min 1 (7/10 * (1/2) +
          3/10 * (if ({"python", "sql"} : Finset String) = ∅ then 0
                  else ((({"python", "sql"} : Finset String) ∩ {"python"}).card : ℚ) /
                    (({"python", "sql"} : Finset String).card : ℚ)))) :=
  (batch_final_score_spec (1/2) {"python", "sql"} {"python"}).1

lemma contains_space_not_isEmpty {sn : List Char} (h : sn.contains ' ' = true) :
    sn.isEmpty = false := by
  cases sn with
  | nil => simp [List.contains] at h
  | cons c cs => rfl

lemma matchesSkill_nil (sn : List Char) : matchesSkill [] sn = false := by
  rw [matchesSkill]
  cases hs : sn.contains ' ' with
  | true =>
    rw [if_pos rfl]
    show sn.isEmpty = false
    exact contains_space_not_isEmpty hs
  | false =>
    rw [if_neg (by simp)]
    cases he : sn.isEmpty with
    | true =>
      rw [if_pos rfl]
      rfl
    | false =>
      rw [if_neg (by simp)]
      have hne : sn ≠ [] := by
        cases sn with
        | nil => simp [List.isEmpty] at he
        | cons c cs => exact List.cons_ne_nil c cs
      show (splitOnSpace []).contains sn = false
      simp [splitOnSpace, splitOnSpaceAux, hne]

lemma filter_matchesSkill_nil (l : List String) :
    (l.filter fun sn => matchesSkill [] sn.data) = [] := by
  induction l with
  | nil => rfl
  | cons v vs ih =>
    rw [List.filter_cons, matchesSkill_nil]
    simpa using ih

lemma extract_skills_empty (vocab : List String) : extract_skills "" vocab = [] := by
  show List.insertionSort (· ≤ ·)
      (((vocab.map normalize_text).filter
        fun sn => matchesSkill (normalize_chars "") sn.data).dedup) = []
  have hnorm : normalize_chars "" = [] := rfl
  rw [hnorm, filter_matchesSkill_nil]
  rfl

/-- C9: skill extraction matches multi-word vocabulary entries by substring
on the normalized text and single-word entries by word-boundary (token)
match; its output is duplicate-free; membership is characterized by the
per-entry match; empty input text yields the empty set for every
vocabulary; and on the concrete text "Expert in JavaScript since 2015" the
entry "java" does not match inside "javascript". -/
theorem extract_skills_spec :
    (∀ vocab : List String, extract_skills "" vocab = [])
    ∧ (∀ (text : String) (vocab : List String), (extract_skills text vocab).Nodup)
    ∧ (∀ (text : String) (vocab : List String) (s : String),
        s ∈ extract_skills text vocab ↔
          (∃ sk ∈ vocab, normalize_text sk = s) ∧
            matchesSkill (normalize_chars text) s.data = true)
    ∧ extract_skills "Expert in JavaScript since 2015" ["java", "javascript"]
        = ["javascript"] := by
  refine ⟨extract_skills_empty, ?_, ?_, by decide⟩
  · intro text vocab
    exact ((List.perm_insertionSort _ _).nodup_iff).mpr (List.nodup_dedup _)
  · intro text vocab s
    unfold extract_skills
    rw [List.mem_insertionSort, List.mem_dedup, List.mem_filter]
    constructor
    · rintro ⟨hmem, hmatch⟩
      rcases List.mem_map.mp hmem with ⟨sk, hsk, rfl⟩
      exact ⟨⟨sk, hsk, rfl⟩, hmatch⟩
    · rintro ⟨⟨sk, hsk, rfl⟩, hmatch⟩
      exact ⟨List.mem_map.mpr ⟨sk, hsk, rfl⟩, hmatch⟩

lemma section_weights_nonneg (s : ResumeSection) : 0 ≤ SECTION_WEIGHTS s := by
  cases s <;> norm_num [SECTION_WEIGHTS]

lemma compute_skill_boost_factor_eq (resume_text jd_text : String) (vocab : List String) :
    compute_skill_boost_factor resume_text jd_text vocab
      = 1 + (1/2) * skill_overlap_score (extract_skills jd_text vocab).toFinset
          (extract_skills resume_text vocab).toFinset := by
  unfold compute_skill_boost_factor skill_overlap_score
  by_cases h : (extract_skills jd_text vocab).toFinset = ∅
  · simp [h]
  · simp only [h, if_neg h, if_false]
    rw [Finset.inter_comm]
    ring

lemma compute_skill_boost_factor_bounds (resume_text jd_text : String) (vocab : List String) :
    1 ≤ compute_skill_boost_factor resume_text jd_text vocab
      ∧ compute_skill_boost_factor resume_text jd_text vocab ≤ 3/2 := by
  rw [compute_skill_boost_factor_eq]
  have h0 := skill_overlap_score_nonneg (extract_skills jd_text vocab).toFinset
    (extract_skills resume_text vocab).toFinset
  have h1 := skill_overlap_score_le_one (extract_skills jd_text vocab).toFinset
    (extract_skills resume_text vocab).toFinset
  constructor <;> nlinarith

lemma sectionStep_bounds (resumeSecs jdSecs : List ResumeSection)
    (sim : ResumeSection → ℚ) (hsim : ∀ s, 0 ≤ sim s ∧ sim s ≤ 1)
    (init : ℚ × ℚ) (h1 : 0 ≤ init.1) (h2 : init.1 ≤ init.2) (s : ResumeSection) :
    0 ≤ (sectionStep resumeSecs jdSecs sim init s).1
      ∧ (sectionStep resumeSecs jdSecs sim init s).1
          ≤ (sectionStep resumeSecs jdSecs sim init s).2 := by
  have hw := section_weights_nonneg s
  have hs := hsim s
  by_cases hw0 : SECTION_WEIGHTS s = 0
  · simp only [sectionStep, hw0, if_pos rfl]
    exact ⟨h1, h2⟩
  · by_cases hmem : s ∈ resumeSecs ∧ s ∈ jdSecs
    · simp only [sectionStep, if_neg hw0, if_pos hmem]
      constructor
      · nlinarith [hs.1]
      · nlinarith [hs.2]
    · simp only [sectionStep, if_neg hw0, if_neg hmem]
      exact ⟨h1, h2⟩

lemma foldl_sectionStep_bounds (resumeSecs jdSecs : List ResumeSection)
    (sim : ResumeSection → ℚ) (hsim : ∀ s, 0 ≤ sim s ∧ sim s ≤ 1) :
    ∀ (secs : List ResumeSection) (init : ℚ × ℚ), 0 ≤ init.1 → init.1 ≤ init.2 →
      0 ≤ (secs.foldl (sectionStep resumeSecs jdSecs sim) init).1
        ∧ (secs.foldl (sectionStep resumeSecs jdSecs sim) init).1
            ≤ (secs.foldl (sectionStep resumeSecs jdSecs sim) init).2 := by
  intro secs
  induction secs with
  | nil => exact fun init h1 h2 => ⟨h1, h2⟩
  | cons s ss ih =>
    intro init h1 h2
    simp only [List.foldl_cons]
    obtain ⟨g1, g2⟩ := sectionStep_bounds resumeSecs jdSecs sim hsim init h1 h2 s
    exact ih _ g1 g2

lemma section_base_similarity_bounds (resumeSecs jdSecs : List ResumeSection)
    (sim : ResumeSection → ℚ) (hsim : ∀ s, 0 ≤ sim s ∧ sim s ≤ 1) :
    0 ≤ section_base_similarity resumeSecs jdSecs sim
      ∧ section_base_similarity resumeSecs jdSecs sim ≤ 1 := by
  obtain ⟨hA, hB⟩ := foldl_sectionStep_bounds resumeSecs jdSecs sim hsim
    weightedSectionList (0, 0) le_rfl le_rfl
  simp only [section_base_similarity]
  split
  · rename_i hpos
    constructor
    · positivity
    · rw [div_le_one hpos]
      exact hB
  · exact ⟨le_rfl, zero_le_one⟩

lemma extract_skills_empty_toFinset (vocab : List String) :
    (extract_skills "" vocab).toFinset = ∅ := by
  rw [extract_skills_empty]
  rfl

lemma compute_skill_boost_factor_one_of_empty (resume_text jd_text : String)
    (vocab : List String) (h : resume_text = "" ∨ jd_text = "") :
    compute_skill_boost_factor resume_text jd_text vocab = 1 := by
  rw [compute_skill_boost_factor_eq]
  rcases h with h | h
  · subst h
    unfold skill_overlap_score
    rw [extract_skills_empty_toFinset]
    split
    · ring
    · simp [Finset.inter_empty]
  · subst h
    rw [extract_skills_empty_toFinset]
    unfold skill_overlap_score
    simp

lemma compute_section_aware_similarity_eq_min (resumeSecs jdSecs : List ResumeSection)
    (sim : ResumeSection → ℚ) (resume_text jd_text : String) (vocab : List String)
    (hsim : ∀ s, 0 ≤ sim s ∧ sim s ≤ 1) :
    compute_section_aware_similarity resumeSecs jdSecs sim resume_text jd_text vocab
      = min (section_base_similarity resumeSecs jdSecs sim *
          compute_skill_boost_factor resume_text jd_text vocab) 1 := by
  unfold compute_section_aware_similarity
  by_cases h : resume_text ≠ "" ∧ jd_text ≠ ""
  · simp [h]
  · have hempty : resume_text = "" ∨ jd_text = "" := by
      by_cases h1 : resume_text = ""
      · exact Or.inl h1
      · exact Or.inr (by
          by_cases h2 : jd_text = ""
          · exact h2
          · exact absurd ⟨h1, h2⟩ h)
    rw [if_neg h, compute_skill_boost_factor_one_of_empty _ _ _ hempty, mul_one]
    exact (min_eq_left (section_base_similarity_bounds resumeSecs jdSecs sim hsim).2).symm

/-- C8: the lexical ranker's skill-boost factor equals
`1.0 + 0.5 * overlap` with
`overlap = |skills(profile) ∩ skills(query)| / |skills(query)|` (0 when the
query has no skills), hence lies in `[1.0, 1.5]`; and for cosine section
similarities in `[0,1]` the final lexical score equals
`min(base_similarity * boost, 1.0)` — the boost multiplies the already
computed cosine-based base similarity, it never enters the vector space. -/
theorem skill_boost_factor_spec (resume_text jd_text : String) (skills_vocab : List String)
    (resumeSecs jdSecs : List ResumeSection) (sim : ResumeSection → ℚ)
    (hsim : ∀ s, 0 ≤ sim s ∧ sim s ≤ 1) :
    compute_skill_boost_factor resume_text jd_text skills_vocab
        = 1 + (1/2) * skill_overlap_score (extract_skills jd_text skills_vocab).toFinset
            (extract_skills resume_text skills_vocab).toFinset
    ∧ 1 ≤ compute_skill_boost_factor resume_text jd_text skills_vocab
    ∧ compute_skill_boost_factor resume_text jd_text skills_vocab ≤ 3/2
    ∧ compute_section_aware_similarity resumeSecs jdSecs sim resume_text jd_text skills_vocab
        = min (section_base_similarity resumeSecs jdSecs sim *
            compute_skill_boost_factor resume_text jd_text skills_vocab) 1 :=
  ⟨compute_skill_boost_factor_eq resume_text jd_text skills_vocab,
   (compute_skill_boost_factor_bounds resume_text jd_text skills_vocab).1,
   (compute_skill_boost_factor_bounds resume_text jd_text skills_vocab).2,
   compute_section_aware_similarity_eq_min resumeSecs jdSecs sim resume_text jd_text
     skills_vocab hsim⟩

/-- Witness for C8 at concrete inputs (constant section similarity 1/2,
experience section present on both sides). -/
theorem skill_boost_factor_spec_witness :
    (∀ s : ResumeSection, 0 ≤ (fun _ : ResumeSection => (1:ℚ)/2) s
        ∧ (fun _ : ResumeSection => (1:ℚ)/2) s ≤ 1)
    ∧ 1 ≤ compute_skill_boost_factor "built apis with python" "need python and sql" SKILLS := by
  have h : ∀ s : ResumeSection, 0 ≤ (fun _ : ResumeSection => (1:ℚ)/2) s
      ∧ (fun _ : ResumeSection => (1:ℚ)/2) s ≤ 1 := fun s => by norm_num
  exact ⟨h, (skill_boost_factor_spec "built apis with python" "need python and sql" SKILLS
    [ResumeSection.experience] [ResumeSection.experience] _ h).2.1⟩

lemma compute_sim_no_sections (sim : ResumeSection → ℚ) (resume_text jd_text : String)
    (vocab : List String) :
    compute_section_aware_similarity [] [] sim resume_text jd_text vocab = 0 := by
  have hbase : section_base_similarity [] [] sim = 0 := by
    unfold section_base_similarity weightedSectionList sectionStep
    norm_num
  unfold compute_section_aware_similarity
  rw [hbase]
  by_cases h : resume_text ≠ "" ∧ jd_text ≠ ""
  · rw [if_pos h, zero_mul]
    exact min_eq_left zero_le_one
  · rw [if_neg h]

/-- C4, corrected part: with no section model available for any profile
(all weighted sections empty), the pipeline still takes the section-aware
branch (`use_section_aware` is true because section parsing is total), and
the per-profile base lexical similarity is 0 — the whole-document TF-IDF
fallback is not invoked, contradicting the claimed fallback behaviour. -/
theorem section_fallback_counterexample :
    available_sections (fun _ _ => true) [ResumeSections.mk "" "" "" "" "" ""] = []
    ∧ use_section_aware ([("python developer", (none : Option ResumeSections))].map
        fun p => load_or_parse (fun _ => ResumeSections.mk "" "" "" "" "" "") p.1 p.2) = true
    ∧ compute_section_aware_similarity [] [] (fun _ => 1) "python developer"
        "python developer" SKILLS = 0 :=
  ⟨by decide, rfl, compute_sim_no_sections _ _ _ _⟩

/-- C4, amended: the base similarity is the weighted total over sections
with vectors on both sides, normalized by the sum of the weights actually
used, with result 0 (no division) when that sum is 0; the whole-document
fallback branch is selected only when some profile's sections are
unavailable, which never happens because `parse_sections` is total; and
with no section models the similarity is 0 for every profile. -/
theorem section_similarity_amended :
    (∀ (resumeSecs jdSecs : List ResumeSection) (sim : ResumeSection → ℚ),
        section_base_similarity resumeSecs jdSecs sim
          = if 0 < usedWeight resumeSecs jdSecs
            then usedScore resumeSecs jdSecs sim / usedWeight resumeSecs jdSecs
            else 0)
    ∧ (∀ (parse : String → ResumeSections) (inputs : List (String × Option ResumeSections)),
        use_section_aware (inputs.map fun p => load_or_parse parse p.1 p.2) = true)
    ∧ (∀ (sim : ResumeSection → ℚ) (resume_text jd_text : String) (vocab : List String),
        compute_section_aware_similarity [] [] sim resume_text jd_text vocab = 0) := by
  refine ⟨?_, ?_, compute_sim_no_sections⟩
  · intro resumeSecs jdSecs sim
    unfold section_base_similarity usedWeight usedScore weightedSectionList sectionStep
    by_cases h1 : ResumeSection.experience ∈ resumeSecs ∧ ResumeSection.experience ∈ jdSecs <;>
      by_cases h2 : ResumeSection.skills ∈ resumeSecs ∧ ResumeSection.skills ∈ jdSecs <;>
        by_cases h3 : ResumeSection.projects ∈ resumeSecs ∧ ResumeSection.projects ∈ jdSecs <;>
          · simp [h1, h2, h3, SECTION_WEIGHTS]
            try norm_num
            try ring_nf
  · intro parse inputs
    rw [use_section_aware, List.all_eq_true]
    intro o ho
    rcases List.mem_map.mp ho with ⟨p, _, rfl⟩
    rfl

lemma pairwise_orderedInsert_stable {α : Type} (le : α → α → Prop) [DecidableRel le]
    (S : α → α → Prop)
    (hS1 : ∀ a b, le a b → ¬ le b a → S a b)
    (htot : ∀ a b, le a b ∨ le b a)
    (htrans : ∀ a b c, le a b → le b c → le a c)
    (a : α) :
    ∀ l : List α, l.Pairwise le → l.Pairwise S →
      (∀ b ∈ l, le a b → le b a → S a b) → (l.orderedInsert le a).Pairwise S := by
  intro l
  induction l with
  | nil =>
    intro _ _ _
    exact List.pairwise_singleton S a
  | cons b t ih =>
    intro hsorted hp ha
    by_cases hab : le a b
    · rw [List.orderedInsert, if_pos hab]
      refine List.pairwise_cons.mpr ⟨?_, hp⟩
      intro x hx
      rcases List.mem_cons.mp hx with hxb | hx
      · subst hxb
        by_cases hba : le x a
        · exact ha x (List.mem_cons_self x t) hab hba
        · exact hS1 a x hab hba
      · have hbx : le b x := List.rel_of_pairwise_cons hsorted hx
        have hax : le a x := htrans a b x hab hbx
        by_cases hxa : le x a
        · exact ha x (List.mem_cons_of_mem b hx) hax hxa
        · exact hS1 a x hax hxa
    · rw [List.orderedInsert, if_neg hab]
      refine List.pairwise_cons.mpr ⟨?_, ?_⟩
      · intro x hx
        rcases (List.mem_orderedInsert le).mp hx with rfl | hx
        · have hba : le b x := (htot x b).resolve_left hab
          exact hS1 b x hba hab
        · exact List.rel_of_pairwise_cons hp hx
      · exact ih (List.Pairwise.of_cons hsorted) (List.Pairwise.of_cons hp)
          fun x hx => ha x (List.mem_cons_of_mem b hx)

lemma pairwise_insertionSort_stable {α : Type} (le : α → α → Prop) [DecidableRel le]
    (S : α → α → Prop)
    (hS1 : ∀ a b, le a b → ¬ le b a → S a b)
    (htot : ∀ a b, le a b ∨ le b a)
    (htrans : ∀ a b c, le a b → le b c → le a c)
    (l : List α) (hl : l.Pairwise fun a b => le a b → le b a → S a b) :
    (l.insertionSort le).Pairwise S := by
  haveI : IsTotal α le := ⟨htot⟩
  haveI : IsTrans α le := ⟨fun a b c => htrans a b c⟩
  induction l with
  | nil => exact List.Pairwise.nil
  | cons a t ih =>
    rw [List.insertionSort]
    rcases List.pairwise_cons.mp hl with ⟨ha, ht⟩
    exact pairwise_orderedInsert_stable le S hS1 htot htrans a _
      (List.sorted_insertionSort le t) (ih ht)
      fun b hb => ha b ((List.mem_insertionSort le).mp hb)

lemma rankKeyGE_total : ∀ a b : RankRow, rankKeyGE a b ∨ rankKeyGE b a := by
  intro a b
  unfold rankKeyGE
  rcases lt_trichotomy a.final_score b.final_score with h | h | h
  · exact Or.inr (Or.inl h)
  · rcases le_total b.tfidf_score a.tfidf_score with ht | ht
    · exact Or.inl (Or.inr ⟨h.symm, ht⟩)
    · exact Or.inr (Or.inr ⟨h, ht⟩)
  · exact Or.inl (Or.inl h)

lemma rankKeyGE_trans : ∀ a b c : RankRow, rankKeyGE a b → rankKeyGE b c → rankKeyGE a c := by
  intro a b c hab hbc
  unfold rankKeyGE at *
  rcases hab with h1 | ⟨he1, h1⟩ <;> rcases hbc with h2 | ⟨he2, h2⟩
  · exact Or.inl (h2.trans h1)
  · exact Or.inl (lt_of_eq_of_lt he2 h1)
  · exact Or.inl (lt_of_lt_of_eq h2 he1)
  · exact Or.inr ⟨he2.trans he1, h2.trans h1⟩

lemma rankKeyGE_strict {a b : RankRow} (hab : rankKeyGE a b) (hnba : ¬ rankKeyGE b a) :
    rankOrder a b := by
  unfold rankKeyGE at hab hnba
  unfold rankOrder
  push_neg at hnba
  rcases hab with h1 | ⟨he1, h1⟩
  · exact Or.inl h1
  · exact Or.inr ⟨he1, Or.inl (hnba.2 he1.symm)⟩

/-- C3: batch ranking output is a deterministic total order — given rows
listed with (distinct) filenames ascending, as `rank_collection` produces
them from `sorted(processed_dir.glob("*.txt"))`, the sorted result is a
permutation of the input ordered by final score descending, ties by TF-IDF
score descending, remaining ties by filename ascending; and it is the
unique such list, so repeated runs on identical input give identical
ordering and scores. -/
theorem sort_results_spec (rows : List RankRow)
    (hnames : rows.Pairwise fun a b => a.filename < b.filename) :
    List.Perm (sort_results rows) rows
    ∧ (sort_results rows).Pairwise rankOrder
    ∧ ∀ l : List RankRow, List.Perm l rows → l.Pairwise rankOrder → l = sort_results rows := by
  have hperm : List.Perm (sort_results rows) rows := List.perm_insertionSort _ _
  have hpair : (sort_results rows).Pairwise rankOrder := by
    apply pairwise_insertionSort_stable rankKeyGE rankOrder
      (fun a b => rankKeyGE_strict) rankKeyGE_total rankKeyGE_trans rows
    refine hnames.imp ?_
    intro a b hname hab hba
    unfold rankKeyGE at hab hba
    unfold rankOrder
    rcases hab with h1 | ⟨he1, h1⟩
    · rcases hba with h2 | ⟨he2, h2⟩
      · exact absurd h2 (lt_asymm h1)
      · exact absurd he2 (ne_of_lt h1).symm
    · rcases hba with h2 | ⟨he2, h2⟩
      · exact absurd he1 (ne_of_lt h2).symm
      · exact Or.inr ⟨he1, Or.inr ⟨le_antisymm h1 h2, hname⟩⟩
  refine ⟨hperm, hpair, ?_⟩
  intro l hpl hl
  exact List.eq_of_perm_of_sorted (hpl.trans hperm.symm) hl hpair

/-- Witness for C3: two rows fully tied on both score components keep
their filename-ascending order. -/
theorem sort_results_spec_witness :
    ([⟨"a.txt", 1/2, 0, 3/5⟩, ⟨"b.txt", 1/2, 0, 3/5⟩] : List RankRow).Pairwise
      (fun a b => a.filename < b.filename)
    ∧ (sort_results [⟨"a.txt", 1/2, 0, 3/5⟩, ⟨"b.txt", 1/2, 0, 3/5⟩]).Pairwise rankOrder := by
  have h : ([⟨"a.txt", 1/2, 0, 3/5⟩, ⟨"b.txt", 1/2, 0, 3/5⟩] : List RankRow).Pairwise
      (fun a b => a.filename < b.filename) := by
    refine List.pairwise_cons.mpr ⟨?_, List.pairwise_singleton _ _⟩
    intro b hb
    rw [List.mem_singleton.mp hb]
    show ("a.txt" : String) < "b.txt"
    rw [String.lt_iff_toList_lt]
    decide
  exact ⟨h, (sort_results_spec _ h).2.1⟩

lemma l2sq_nonneg : ∀ u v : List ℚ, 0 ≤ l2sq u v
  | [], _ => by simp [l2sq]
  | _ :: _, [] => by simp [l2sq]
  | a :: u, b :: v => by
    have h := l2sq_nonneg u v
    unfold l2sq at h ⊢
    simp only [List.zipWith_cons_cons, List.sum_cons]
    nlinarith [sq_nonneg (a - b)]

lemma sim_bounds (d : ℚ) (hd : 0 ≤ d) : 0 < 1 / (1 + d) ∧ 1 / (1 + d) ≤ 1 := by
  have h1 : (0:ℚ) < 1 + d := by linarith
  constructor
  · positivity
  · rw [div_le_one h1]
    linarith

lemma round4_bounds {x : ℚ} (h0 : 0 ≤ x) (h1 : x ≤ 1) : 0 ≤ round4 x ∧ round4 x ≤ 1 := by
  unfold round4
  have ha : (0:ℤ) ≤ round (x * 10000) := by
    rw [round_eq]
    apply Int.le_floor.mpr
    push_cast
    nlinarith
  have hb : round (x * 10000) ≤ 10000 := by
    rw [round_eq]
    have hcalc : (⌊(10000:ℚ) + 1/2⌋ : ℤ) = 10000 := by
      rw [show ((10000:ℚ) + 1/2) = (1/2 + (10000:ℤ) : ℚ) by push_cast; ring]
      rw [Int.floor_add_int]
      norm_num
    calc ⌊x * 10000 + 1/2⌋ ≤ ⌊(10000:ℚ) + 1/2⌋ := Int.floor_le_floor (by nlinarith)
      _ = 10000 := hcalc
  constructor
  · apply div_nonneg _ (by norm_num)
    exact_mod_cast ha
  · rw [div_le_one (by norm_num)]
    exact_mod_cast hb

lemma mem_of_lookup_eq_some {l : List (ℕ × String)} {k : ℕ} {v : String}
    (h : l.lookup k = some v) : (k, v) ∈ l := by
  induction l with
  | nil => cases h
  | cons a t ih =>
    cases a with
    | mk k1 v1 =>
      by_cases hk : k == k1
      · simp only [List.lookup, hk, Option.some.injEq] at h
        have hk2 : k = k1 := by simpa using hk
        rw [hk2, h]
        exact List.mem_cons_self _ _
      · simp only [List.lookup, hk] at h
        exact List.mem_cons_of_mem _ (ih h)

lemma mem_search_index {vecs : List (List ℚ)} {q : List ℚ} {k : ℕ} {p : ℕ × ℚ}
    (hp : p ∈ search_index vecs q k) : 0 ≤ p.2 := by
  unfold search_index at hp
  have h1 := List.take_subset _ _ hp
  have h2 := (List.mem_insertionSort distLE).mp h1
  have h3 := List.mem_enum_iff_getElem?.mp h2
  have h4 := List.getElem?_mem h3
  rcases List.mem_map.mp h4 with ⟨v, _, hveq⟩
  rw [← hveq]
  exact l2sq_nonneg q v

lemma rankingScoreOf_bounds {rd : List RankEntry} {filename : String}
    (hrd : ∀ e ∈ rd, 0 ≤ e.final_score ∧ e.final_score ≤ 1) :
    0 ≤ rankingScoreOf rd filename ∧ rankingScoreOf rd filename ≤ 1 := by
  unfold rankingScoreOf
  split
  · cases hfind : rd.find? fun e => e.filename == filename with
    | none => simp
    | some e =>
      have := hrd e (List.mem_of_find?_eq_some hfind)
      simpa [hfind] using this
  · exact ⟨le_rfl, zero_le_one⟩

lemma skillScoreOf_bounds (qs rs : Finset String) :
    0 ≤ skillScoreOf qs rs ∧ skillScoreOf qs rs ≤ 1 := by
  unfold skillScoreOf
  split
  · exact ⟨skill_overlap_score_nonneg qs rs, skill_overlap_score_le_one qs rs⟩
  · exact ⟨le_rfl, zero_le_one⟩

lemma combinedOf_bounds {hr : Bool} {sim rs ss : ℚ} (hsim : 0 < sim ∧ sim ≤ 1)
    (hrs : 0 ≤ rs ∧ rs ≤ 1) (hss : 0 ≤ ss ∧ ss ≤ 1) :
    0 ≤ combinedOf hr sim rs ss ∧ combinedOf hr sim rs ss ≤ 1 := by
  unfold combinedOf
  obtain ⟨h1, h2⟩ := hsim
  obtain ⟨h3, h4⟩ := hrs
  obtain ⟨h5, h6⟩ := hss
  split
  · constructor <;> nlinarith
  · constructor <;> nlinarith

lemma candidate_of_some {m : List (ℕ × String)} {rd : List RankEntry}
    {texts : String → String} {qs : Finset String} {f : Filters} {p : ℕ × ℚ} {c : Candidate}
    (h : candidate_of m rd texts qs f p = some c) :
    c.filename ∈ m.map Prod.snd
    ∧ (∀ v, f.min_rank_position = some v → c.rank_position ≤ v)
    ∧ (∀ v, f.max_rank_position = some v → v ≤ c.rank_position)
    ∧ (∀ v, f.min_ranking_score = some v → v ≤ c.combined_raw)
    ∧ (f.required_skills ≠ [] →
        (f.required_skills.map toLowerStr).toFinset ∩ c.skills.toFinset ≠ ∅)
    ∧ c.combined_score = round4 c.combined_raw
    ∧ c.skills = resumeSkillsOf texts c.filename
    ∧ ((∀ e ∈ rd, 0 ≤ e.final_score ∧ e.final_score ≤ 1) → 0 ≤ p.2 →
        0 ≤ c.combined_raw ∧ c.combined_raw ≤ 1) := by
  unfold candidate_of at h
  cases hlook : m.lookup p.1 with
  | none =>
    rw [hlook] at h
    cases h
  | some filename =>
    rw [hlook] at h
    dsimp only at h
    by_cases h1 : failsMinRank f (rankPositionOf rd filename)
    · rw [if_pos h1] at h
      cases h
    rw [if_neg h1] at h
    by_cases h2 : failsMaxRank f (rankPositionOf rd filename)
    · rw [if_pos h2] at h
      cases h
    rw [if_neg h2] at h
    by_cases h3 : failsMinScore f (combinedOf (!rd.isEmpty) (1 / (1 + p.2))
        (rankingScoreOf rd filename)
        (skillScoreOf qs (resumeSkillsOf texts filename).toFinset))
    · rw [if_pos h3] at h
      cases h
    rw [if_neg h3] at h
    by_cases h4 : failsRequiredSkills f (resumeSkillsOf texts filename).toFinset
    · rw [if_pos h4] at h
      cases h
    rw [if_neg h4] at h
    have hc : mkCandidate rd texts qs p.2 filename = c := Option.some.inj h
    subst hc
    rw [Bool.not_eq_true] at h1 h2 h3 h4
    simp only [mkCandidate]
    refine ⟨?_, ?_, ?_, ?_, ?_, trivial, trivial, ?_⟩
    · exact List.mem_map.mpr ⟨(p.1, filename), mem_of_lookup_eq_some hlook, rfl⟩
    · intro v hv
      unfold failsMinRank at h1
      rw [hv] at h1
      exact Nat.le_of_not_lt (of_decide_eq_false h1)
    · intro v hv
      unfold failsMaxRank at h2
      rw [hv] at h2
      exact Nat.le_of_not_lt (of_decide_eq_false h2)
    · intro v hv
      unfold failsMinScore at h3
      rw [hv] at h3
      exact le_of_not_lt (of_decide_eq_false h3)
    · intro hreq
      have h4' := of_decide_eq_false h4
      rw [not_and_or] at h4'
      rcases h4' with h4' | h4'
      · exact absurd hreq (by simpa using h4')
      · simpa [mkCandidate] using h4'
    · intro hrd hd
      exact combinedOf_bounds (sim_bounds p.2 hd) (rankingScoreOf_bounds hrd)
        (skillScoreOf_bounds qs (resumeSkillsOf texts filename).toFinset)

lemma mem_retrieve {vecs : List (List ℚ)} {query : String} {qe : List ℚ}
    {mapping : List (ℕ × String)} {rdict : List RankEntry} {texts : String → String}
    {top_k : ℕ} {filters : Filters} {c : Candidate}
    (hc : c ∈ retrieve_candidates vecs query qe mapping rdict texts top_k filters) :
    ∃ p ∈ search_index vecs qe 50,
      candidate_of mapping rdict texts ((extract_skills query SKILLS).toFinset) filters p
        = some c := by
  have hc' : c ∈ (List.insertionSort candLE ((search_index vecs qe 50).filterMap
      (candidate_of mapping rdict texts ((extract_skills query SKILLS).toFinset)
        filters))).take top_k := hc
  have h1 := List.take_subset _ _ hc'
  have h2 := (List.mem_insertionSort candLE).mp h1
  exact List.mem_filterMap.mp h2

lemma retrieve_sorted (vecs : List (List ℚ)) (query : String) (qe : List ℚ)
    (mapping : List (ℕ × String)) (rdict : List RankEntry) (texts : String → String)
    (top_k : ℕ) (filters : Filters) :
    (retrieve_candidates vecs query qe mapping rdict texts top_k filters).Pairwise candLE := by
  show (List.Pairwise candLE ((List.insertionSort candLE ((search_index vecs qe 50).filterMap
    (candidate_of mapping rdict texts ((extract_skills query SKILLS).toFinset)
      filters))).take top_k))
  exact (List.sorted_insertionSort candLE _).take

lemma retrieve_length_le (vecs : List (List ℚ)) (query : String) (qe : List ℚ)
    (mapping : List (ℕ × String)) (rdict : List RankEntry) (texts : String → String)
    (top_k : ℕ) (filters : Filters) :
    (retrieve_candidates vecs query qe mapping rdict texts top_k filters).length ≤ top_k :=
  List.length_take_le top_k _

/-- C7: semantic search returns at most `min(k, vector_count)` results in
descending-similarity order, each similarity `1/(1+distance)` lying in
`(0,1]` (distances are squared L2, hence non-negative), and retrieval
never yields a filename absent from the id mapping (hits with unknown
vector ids are dropped). -/
theorem search_index_spec :
    (∀ (vecs : List (List ℚ)) (query_embedding : List ℚ) (k : ℕ),
        (search_index vecs query_embedding k).length = min k vecs.length
        ∧ (∀ p ∈ search_index vecs query_embedding k,
            0 ≤ p.2 ∧ 0 < 1 / (1 + p.2) ∧ 1 / (1 + p.2) ≤ 1)
        ∧ (search_index vecs query_embedding k).Pairwise
            fun a b => 1 / (1 + b.2) ≤ 1 / (1 + a.2))
    ∧ ∀ (vecs : List (List ℚ)) (query : String) (qe : List ℚ)
        (mapping : List (ℕ × String)) (rdict : List RankEntry)
        (texts : String → String) (top_k : ℕ) (filters : Filters),
        ∀ c ∈ retrieve_candidates vecs query qe mapping rdict texts top_k filters,
          c.filename ∈ mapping.map Prod.snd := by
  constructor
  · intro vecs qe k
    refine ⟨?_, ?_, ?_⟩
    · unfold search_index
      rw [List.length_take, List.length_insertionSort, List.enum_length, List.length_map]
      rw [min_assoc, min_self]
    · intro p hp
      have hd := mem_search_index hp
      exact ⟨hd, sim_bounds p.2 hd⟩
    · have hsorted : (search_index vecs qe k).Pairwise distLE := by
        unfold search_index
        exact (List.sorted_insertionSort distLE _).take
      refine List.Pairwise.imp_of_mem ?_ hsorted
      intro a b ha hb hab
      have hda := mem_search_index ha
      have h1 : (0:ℚ) < 1 + a.2 := by linarith
      have h2 : 1 + a.2 ≤ 1 + b.2 := by
        have : a.2 ≤ b.2 := hab
        linarith
      exact one_div_le_one_div_of_le h1 h2
  · intro vecs query qe mapping rdict texts top_k filters c hc
    obtain ⟨p, _, hsome⟩ := mem_retrieve hc
    exact (candidate_of_some hsome).1

/-- Witness for C7 at a concrete one-vector index. -/
theorem search_index_spec_witness :
    (search_index [[1]] [0] 5).length = min 5 1 :=
  (search_index_spec.1 [[1]] [0] 5).1

/-- C1, counterexample: a stored prior batch score of `2` (out of `[0,1]`)
flows unclamped into the retrieval combination
`0.4·semantic + 0.3·prior + 0.3·skill`, producing a reported
`combined_score` of `1.3 > 1` — no defensive clamping happens in
`retrieve_candidates`. -/
theorem retrieval_clamp_counterexample :
    (retrieve_candidates [[1]] "python" [1] [(0, "r1.txt")]
        [RankEntry.mk "r1.txt" 1 2] (fun _ => "python") 5
        (Filters.mk none none none [])).map Candidate.combined_score = [13/10]
    ∧ ¬ (13/10 : ℚ) ≤ 1 := by
  refine ⟨?_, by norm_num⟩
  have hl2 : l2sq [1] [1] = 0 := by norm_num [l2sq]
  have hsearch : search_index [[1]] [1] 50 = [(0, 0)] := by
    unfold search_index
    rw [show (List.map (fun v => l2sq [1] v) [[1]]) = [0] by simp [hl2]]
    rfl
  have hc1 : ∀ n, failsMinRank (Filters.mk none none none []) n = false := fun _ => rfl
  have hc2 : ∀ n, failsMaxRank (Filters.mk none none none []) n = false := fun _ => rfl
  have hc3 : ∀ x, failsMinScore (Filters.mk none none none []) x = false := fun _ => rfl
  have hc4 : ∀ s, failsRequiredSkills (Filters.mk none none none []) s = false := fun _ => rfl
  have hco : candidate_of [(0, "r1.txt")] [RankEntry.mk "r1.txt" 1 2] (fun _ => "python")
      ((extract_skills "python" SKILLS).toFinset) (Filters.mk none none none [])
      ((0 : ℕ), (0 : ℚ))
      = some (mkCandidate [RankEntry.mk "r1.txt" 1 2] (fun _ => "python")
          ((extract_skills "python" SKILLS).toFinset) 0 "r1.txt") := by
    unfold candidate_of
    rw [show List.lookup ((0 : ℕ), (0 : ℚ)).1 [((0 : ℕ), "r1.txt")] = some "r1.txt" from rfl]
    dsimp only
    rw [hc1, hc2, hc3, hc4]
    simp
  have hstep : retrieve_candidates [[1]] "python" [1] [(0, "r1.txt")]
      [RankEntry.mk "r1.txt" 1 2] (fun _ => "python") 5 (Filters.mk none none none [])
      = [mkCandidate [RankEntry.mk "r1.txt" 1 2] (fun _ => "python")
          ((extract_skills "python" SKILLS).toFinset) 0 "r1.txt"] := by
    show (List.insertionSort candLE ((search_index [[1]] [1] 50).filterMap
      (candidate_of [(0, "r1.txt")] [RankEntry.mk "r1.txt" 1 2] (fun _ => "python")
        ((extract_skills "python" SKILLS).toFinset) (Filters.mk none none none [])))).take 5
      = _
    rw [hsearch, List.filterMap_cons_some hco, List.filterMap_nil]
    rfl
  rw [hstep, List.map_cons, List.map_nil]
  have hrs : rankingScoreOf [RankEntry.mk "r1.txt" 1 2] "r1.txt" = 2 := rfl
  have hskill : skillScoreOf ((extract_skills "python" SKILLS).toFinset)
      ((resumeSkillsOf (fun _ : String => "python") "r1.txt").toFinset) = 1 := by
    rw [skillScoreOf, if_pos (by decide), skill_overlap_score, if_neg (by decide)]
    rw [show (((extract_skills "python" SKILLS).toFinset) ∩
        ((resumeSkillsOf (fun _ : String => "python") "r1.txt").toFinset)).card = 1 from
      by decide]
    rw [show ((extract_skills "python" SKILLS).toFinset).card = 1 from by decide]
    norm_num
  simp only [mkCandidate]
  rw [hrs, hskill]
  rw [show Bool.not ([RankEntry.mk "r1.txt" 1 2]).isEmpty = true from rfl]
  rw [show ((1 : ℚ) / (1 + 0)) = 1 from by norm_num]
  rw [show combinedOf true 1 2 1 = 13/10 from by norm_num [combinedOf]]
  rw [show round4 (13/10 : ℚ) = 13/10 from by norm_num [round4]]

/-- C1, amended: the batch final score is clamped to `[0,1]` (the clamp is
applied to the combined value, not to each input); the retrieval
`combined_score` is not clamped at all — it lies in `[0,1]` whenever every
stored prior batch score lies in `[0,1]`, the semantic similarity and the
skill overlap being in range by construction. -/
theorem combined_score_range_amended :
    (∀ tfidf skill : ℚ, 0 ≤ combine_scores tfidf skill ∧ combine_scores tfidf skill ≤ 1)
    ∧ ∀ (vecs : List (List ℚ)) (query : String) (qe : List ℚ)
        (mapping : List (ℕ × String)) (rdict : List RankEntry)
        (texts : String → String) (top_k : ℕ) (filters : Filters),
        (∀ e ∈ rdict, 0 ≤ e.final_score ∧ e.final_score ≤ 1) →
        ∀ c ∈ retrieve_candidates vecs query qe mapping rdict texts top_k filters,
          (0 ≤ c.combined_raw ∧ c.combined_raw ≤ 1)
          ∧ (0 ≤ c.combined_score ∧ c.combined_score ≤ 1) := by
  constructor
  · intro tfidf skill
    exact clamp01_mem _
  · intro vecs query qe mapping rdict texts top_k filters hrd c hc
    obtain ⟨p, hp, hsome⟩ := mem_retrieve hc
    have hinv := candidate_of_some hsome
    have hbounds := hinv.2.2.2.2.2.2.2 hrd (mem_search_index hp)
    have hround : c.combined_score = round4 c.combined_raw := hinv.2.2.2.2.2.1
    refine ⟨hbounds, ?_⟩
    rw [hround]
    exact round4_bounds hbounds.1 hbounds.2

/-- Witness for C1 (amended) with an in-range stored prior score `1/2`. -/
theorem combined_score_range_amended_witness :
    (∀ e ∈ [RankEntry.mk "r1.txt" 1 (1/2)], 0 ≤ e.final_score ∧ e.final_score ≤ 1)
    ∧ ∀ c ∈ retrieve_candidates [[1]] "python" [1] [(0, "r1.txt")]
        [RankEntry.mk "r1.txt" 1 (1/2)] (fun _ => "python") 5 (Filters.mk none none none []),
        (0 ≤ c.combined_raw ∧ c.combined_raw ≤ 1)
        ∧ (0 ≤ c.combined_score ∧ c.combined_score ≤ 1) := by
  have h : ∀ e ∈ [RankEntry.mk "r1.txt" 1 (1/2)], 0 ≤ e.final_score ∧ e.final_score ≤ 1 := by
    intro e he
    rw [List.mem_singleton] at he
    subst he
    norm_num
  exact ⟨h, combined_score_range_amended.2 [[1]] "python" [1] [(0, "r1.txt")]
    [RankEntry.mk "r1.txt" 1 (1/2)] (fun _ => "python") 5 (Filters.mk none none none []) h⟩

/-- C5: retrieval filters are conjunctive — every returned candidate
satisfies the inclusive rank-position bounds (`rank ≤ min_rank_position`,
`rank ≥ max_rank_position`), has unrounded combined score `≥ min_score`
when set, and meets `required_skills` when set; the output is sorted by
combined score descending and truncated to `top_k`; and when the required
skills match no resume the result is the empty list, not an error. -/
theorem retrieve_filters_spec (vecs : List (List ℚ)) (query : String) (qe : List ℚ)
    (mapping : List (ℕ × String)) (rdict : List RankEntry) (texts : String → String)
    (top_k : ℕ) (filters : Filters) :
    (∀ c ∈ retrieve_candidates vecs query qe mapping rdict texts top_k filters,
        (∀ v, filters.min_rank_position = some v → c.rank_position ≤ v)
        ∧ (∀ v, filters.max_rank_position = some v → v ≤ c.rank_position)
        ∧ (∀ v, filters.min_ranking_score = some v → v ≤ c.combined_raw)
        ∧ (filters.required_skills ≠ [] →
            (filters.required_skills.map toLowerStr).toFinset ∩ c.skills.toFinset ≠ ∅))
    ∧ (retrieve_candidates vecs query qe mapping rdict texts top_k filters).Pairwise
        (fun a b => b.combined_score ≤ a.combined_score)
    ∧ (retrieve_candidates vecs query qe mapping rdict texts top_k filters).length ≤ top_k
    ∧ (filters.required_skills ≠ [] →
        (∀ fn, (filters.required_skills.map toLowerStr).toFinset ∩
            (extract_skills (texts fn) SKILLS).toFinset = ∅) →
        retrieve_candidates vecs query qe mapping rdict texts top_k filters = []) := by
  refine ⟨?_, retrieve_sorted vecs query qe mapping rdict texts top_k filters,
    retrieve_length_le vecs query qe mapping rdict texts top_k filters, ?_⟩
  · intro c hc
    obtain ⟨p, _, hsome⟩ := mem_retrieve hc
    have hinv := candidate_of_some hsome
    exact ⟨hinv.2.1, hinv.2.2.1, hinv.2.2.2.1, hinv.2.2.2.2.1⟩
  · intro hreq hall
    show (List.insertionSort candLE ((search_index vecs qe 50).filterMap
      (candidate_of mapping rdict texts ((extract_skills query SKILLS).toFinset)
        filters))).take top_k = []
    have hnil : (search_index vecs qe 50).filterMap
        (candidate_of mapping rdict texts ((extract_skills query SKILLS).toFinset)
          filters) = [] := by
      rw [List.filterMap_eq_nil_iff]
      intro p _
      unfold candidate_of
      cases hlook : mapping.lookup p.1 with
      | none => rfl
      | some fn =>
        have h4 : failsRequiredSkills filters (resumeSkillsOf texts fn).toFinset = true :=
          decide_eq_true ⟨hreq, hall fn⟩
        dsimp only
        rw [if_pos h4]
        split_ifs <;> rfl
    rw [hnil]
    simp

/-- Witness for C5: requiring the skill "rust" against a corpus whose only
resume mentions just Python yields an empty result. -/
theorem retrieve_filters_spec_witness :
    (["rust"] ≠ ([] : List String))
    ∧ retrieve_candidates [[1]] "rust" [1] [(0, "r1.txt")] [] (fun _ => "python") 5
        (Filters.mk none none none ["rust"]) = [] := by
  refine ⟨by decide, ?_⟩
  refine (retrieve_filters_spec [[1]] "rust" [1] [(0, "r1.txt")] [] (fun _ => "python") 5
    (Filters.mk none none none ["rust"])).2.2.2 (by decide) ?_
  intro fn
  decide

/-- C6, counterexample: (i) at an age of exactly the TTL (one hour), `get`
still returns the cached response, though the claim requires strictly
`now - created_at < TTL`; (ii) an LLM failure arriving mid-stream after
content chunks yields accumulated text that passes the prefix-based guard,
so the failed response is cached — the cache is populated by a failing
stream. -/
theorem cache_spec_counterexample :
    (get_cached_response (save_cached_response ⟨[]⟩ 0 "fp" "answer") 3600 "fp").1
        = some "answer"
    ∧ streamHasError ["The strongest candidate is A. ", "Error: rate limit"] = true
    ∧ (process_stream_cache ⟨[]⟩ 0 "h"
        ["The strongest candidate is A. ", "Error: rate limit"]).entries ≠ [] := by
  refine ⟨?_, rfl, by decide⟩
  show (get_cached_response ⟨[("fp", 0, "answer")]⟩ 3600 "fp").1 = some "answer"
  unfold get_cached_response
  rw [show (List.find? (fun e => e.1 == "fp") [("fp", (0:ℚ), "answer")])
      = some ("fp", (0:ℚ), "answer") from rfl]
  dsimp only
  rw [if_neg (by norm_num [CACHE_TTL])]

lemma find?_save_self (st : CacheState) (now : ℚ) (fp r : String) :
    (save_cached_response st now fp r).entries.find? (fun e => e.1 == fp)
      = some (fp, now, r) := by
  unfold save_cached_response
  exact List.find?_cons_of_pos _ (by simp)

/-- C6, amended: `put` stores unconditionally, overwriting any existing
entry — a `get` at age `≤ TTL` (note: inclusive, the code expires only
strictly beyond one hour) returns the newly stored response; beyond the
TTL the entry is reported absent and removed; and a response is cached
exactly when the accumulated stream text is non-empty and does not start
with `"Error:"` — so a stream that fails before producing content never
populates the cache (but a mid-stream failure after content does). -/
theorem cache_spec_amended :
    (∀ (st : CacheState) (now now2 : ℚ) (fp r : String),
        now2 - now ≤ CACHE_TTL →
        (get_cached_response (save_cached_response st now fp r) now2 fp).1 = some r)
    ∧ (∀ (st : CacheState) (now now2 : ℚ) (fp r : String),
        now2 - now > CACHE_TTL →
        (get_cached_response (save_cached_response st now fp r) now2 fp).1 = none
        ∧ ∀ e ∈ (get_cached_response (save_cached_response st now fp r) now2 fp).2.entries,
            e.1 ≠ fp)
    ∧ (∀ (full : String), shouldCache full = true ↔
        full ≠ "" ∧ startsWithStr full "Error:" = false)
    ∧ (∀ (st : CacheState) (now : ℚ) (fp : String) (chunks : List String),
        (accumulate chunks = "" ∨ startsWithStr (accumulate chunks) "Error:" = true) →
        process_stream_cache st now fp chunks = st) := by
  refine ⟨?_, ?_, ?_, ?_⟩
  · intro st now now2 fp r hle
    unfold get_cached_response
    rw [find?_save_self]
    dsimp only
    rw [if_neg (not_lt.mpr hle)]
  · intro st now now2 fp r hgt
    unfold get_cached_response
    rw [find?_save_self]
    dsimp only
    rw [if_pos hgt]
    refine ⟨rfl, ?_⟩
    intro e he
    have := List.of_mem_filter he
    simpa using this
  · intro full
    unfold shouldCache
    constructor
    · intro h
      rcases Bool.and_eq_true_iff.mp h with ⟨h1, h2⟩
      exact ⟨of_decide_eq_true h1, by simpa using h2⟩
    · rintro ⟨h1, h2⟩
      rw [Bool.and_eq_true_iff]
      exact ⟨decide_eq_true h1, by simp [h2]⟩
  · intro st now fp chunks h
    unfold process_stream_cache
    rcases h with h | h
    · rw [if_neg (by simp [shouldCache, h])]
    · rw [if_neg (by simp [shouldCache, h])]

/-- Witness for C6 (amended): a put/get round trip within the TTL returns
the stored answer, and an error-first stream leaves the cache unchanged. -/
theorem cache_spec_amended_witness :
    ((0:ℚ) - 0 ≤ CACHE_TTL)
    ∧ (get_cached_response (save_cached_response ⟨[]⟩ 0 "fp" "answer") 0 "fp").1
        = some "answer"
    ∧ (accumulate ["Error: no key"] = "" ∨
        startsWithStr (accumulate ["Error: no key"]) "Error:" = true)
    ∧ process_stream_cache ⟨[]⟩ 0 "fp" ["Error: no key"] = ⟨[]⟩ := by
  have h1 : (0:ℚ) - 0 ≤ CACHE_TTL := by norm_num [CACHE_TTL]
  have h2 : accumulate ["Error: no key"] = "" ∨
      startsWithStr (accumulate ["Error: no key"]) "Error:" = true := Or.inr rfl
  exact ⟨h1, cache_spec_amended.1 ⟨[]⟩ 0 0 "fp" "answer" h1, h2,
    cache_spec_amended.2.2.2 ⟨[]⟩ 0 "fp" ["Error: no key"] h2⟩

/-- C10, counterexample: a run over a non-blank JD and an empty corpus
fails ("No processed resumes found", raised after `save_jd_text`), yet its
trace contains the persisted JD write — a failed run is not free of
persisted artifacts. -/
theorem ranking_persistence_counterexample :
    (rank_collection_trace false 0 none true).2 = false
    ∧ RankEvent.saveJD ∈ (rank_collection_trace false 0 none true).1 := by decide

/-- C10, amended: apart from the JD text, which is saved before scoring
starts, ranking persists nothing early — a failed or cancelled run writes
no ranking output or artifact and is never marked complete, and a
successful run writes all outputs (and the completion mark, which appears
in a trace exactly when it succeeds) only after every profile has been
scored. -/
theorem ranking_persistence_amended :
    ∀ (jd_blank : Bool) (n : ℕ) (fail_at : Option ℕ) (sa : Bool),
      ((rank_collection_trace jd_blank n fail_at sa).2 = false →
        ∀ e ∈ (rank_collection_trace jd_blank n fail_at sa).1, isOutputWrite e = false)
      ∧ (RankEvent.markComplete ∈ (rank_collection_trace jd_blank n fail_at sa).1 ↔
          (rank_collection_trace jd_blank n fail_at sa).2 = true)
      ∧ ((rank_collection_trace jd_blank n fail_at sa).2 = true →
          (rank_collection_trace jd_blank n fail_at sa).1
            = RankEvent.saveJD :: (List.range n).map RankEvent.scoreProfile
                ++ rank_outputs_suffix sa) := by
  intro jd_blank n fail_at sa
  have hmark : RankEvent.markComplete ∈ rank_outputs_suffix sa := by
    unfold rank_outputs_suffix
    cases sa <;> simp
  have hout_saveJD : isOutputWrite RankEvent.saveJD = false := rfl
  unfold rank_collection_trace
  by_cases hjd : jd_blank = true
  · rw [if_pos hjd]
    exact ⟨fun _ e he => absurd he (List.not_mem_nil e), by simp, fun h => absurd h (by simp)⟩
  · rw [if_neg hjd]
    by_cases hn : n = 0
    · rw [if_pos hn]
      refine ⟨?_, by simp, fun h => absurd h (by simp)⟩
      intro _ e he
      rw [List.mem_singleton] at he
      subst he
      exact hout_saveJD
    · rw [if_neg hn]
      cases fail_at with
      | none =>
        dsimp only
        exact ⟨fun h => absurd h (by simp), by simp [hmark], fun _ => rfl⟩
      | some j =>
        dsimp only
        by_cases hj : j < n
        · rw [if_pos hj]
          refine ⟨?_, ?_, fun h => absurd h (by simp)⟩
          · intro _ e he
            rcases List.mem_cons.mp he with rfl | he
            · exact hout_saveJD
            · rcases List.mem_map.mp he with ⟨i, _, rfl⟩
              rfl
          · constructor
            · intro hmem
              rcases List.mem_cons.mp hmem with h | h
              · exact absurd h (by simp)
              · rcases List.mem_map.mp h with ⟨i, _, h⟩
                exact absurd h (by simp)
            · intro h
              exact absurd h (by simp)
        · rw [if_neg hj]
          exact ⟨fun h => absurd h (by simp), by simp [hmark], fun _ => rfl⟩

/-- Witness for C10 (amended): the successful two-profile trace, with
every output written after both profiles are scored. -/
theorem ranking_persistence_amended_witness :
    (rank_collection_trace false 2 none true).2 = true
    ∧ (rank_collection_trace false 2 none true).1
        = RankEvent.saveJD :: (List.range 2).map RankEvent.scoreProfile
            ++ rank_outputs_suffix true := by
  have h : (rank_collection_trace false 2 none true).2 = true := by decide
  exact ⟨h, (ranking_persistence_amended false 2 none true).2.2 h⟩
